import Mathlib

set_option maxRecDepth 8000

/-!
Shallow embedding of the `temporalis` calendar and duration library
(`temporalis.go`, `utils.go`) and proofs about its calendar-range
evaluator and duration formatter.

Modelling conventions:

* An instant (`time.Time`) is modelled as an `Int`: the number of
  nanoseconds since the Unix epoch, with the location fixed to UTC.  In UTC,
  Go's `AddDate(0, 0, 1)` advances the instant by exactly 86400 seconds, and
  the calendar accessors `Year()`, `Month()`, `Day()`, `Weekday()` are pure
  functions of the UTC day number.
* A `time.Duration` is modelled as an `Int`: a number of
  nanoseconds (unbounded; the claims under study do not concern int64
  overflow).
* Go's float conversions `int64(d.Seconds())` and `int(d.Hours() / 24)` are
  modelled by exact truncating integer division (`Int.tdiv`, which rounds
  toward zero exactly like Go's integer conversion); the float64 rounding of
  the real code is treated as exact arithmetic.
* Errors built by `fmt.Errorf("end date %v is before start date %v", end,
  start)` are modelled as the structured value `InvalidRange` carrying both
  endpoints in that order.
* The calendar accessors of the host platform's time library (an external
  collaborator per the specification) are modelled from the spec: they
  realise the proleptic Gregorian calendar over UTC, via the standard
  400-year-era decomposition of the day number.
-/

namespace Temporalis

/-- Nanoseconds per second (`time.Second`). -/
def nsPerSecond : Int := 1000000000

/-- Nanoseconds per hour (`time.Hour`). -/
def hourNs : Int := 3600000000000

/-- Nanoseconds per 86400-second UTC calendar day (`AddDate(0,0,1)` step). -/
def dayNs : Int := 86400000000000

/-- The UTC day number of an instant (floor division; day 0 is 1970-01-01). -/
def dayNumber (t : Int) : Int := t / dayNs

/-- Weekday of an instant, in Go's numbering `Sunday = 0 .. Saturday = 6`.
1970-01-01 (day number 0) was a Thursday (= 4). -/
def weekday (t : Int) : Int := (dayNumber t + 4) % 7

/-- Days from 1 March of year 0 of a 400-year era to 1 March of year `y` of
the era (`0 ≤ y ≤ 399`), in the March-based reckoning of the standard civil
calendar algorithm. -/
def cumYearDays (y : Nat) : Nat := 365 * y + y / 4 - y / 100

/-- Days from 1 March to the first day of shifted month `mp`
(`0 = March .. 11 = February`). -/
def cumMonthDays (mp : Nat) : Nat := (153 * mp + 2) / 5

/-- Day-of-era (`0 ≤ doe < 146097`) of day number `z`:
the offset of `z` inside its 400-year Gregorian era, eras being aligned so
that day 0 of an era is 1 March of a year divisible by 400. -/
def civilDoe (z : Int) : Nat :=
  ((z + 719468) - ((z + 719468) / 146097) * 146097).toNat

/-- Year-of-era (`0 ≤ yoe ≤ 399`) of day number `z`: the largest March-based
year of the era whose first day is not after `z`. -/
def civilYoe (z : Int) : Nat :=
  Nat.findGreatest (fun y => cumYearDays y ≤ civilDoe z) 399

/-- Day-of-year (March-based) of day number `z`. -/
def civilDoy (z : Int) : Nat := civilDoe z - cumYearDays (civilYoe z)

/-- Shifted month (`0 = March .. 11 = February`) of day number `z`. -/
def civilMp (z : Int) : Nat :=
  Nat.findGreatest (fun m => cumMonthDays m ≤ civilDoy z) 11

/-- Calendar month (`1 = January .. 12 = December`) of day number `z`. -/
def civilMonth (z : Int) : Nat :=
  if civilMp z < 10 then civilMp z + 3 else civilMp z - 9

/-- Calendar day of month (`1 ..`) of day number `z`. -/
def civilDay (z : Int) : Nat := civilDoy z - cumMonthDays (civilMp z) + 1

/-- Calendar year of day number `z` (January and February belong to the
calendar year following their March-based year). -/
def civilYear (z : Int) : Int :=
  ((z + 719468) / 146097) * 400 + civilYoe z +
    (if civilMonth z ≤ 2 then 1 else 0)

/-- Inverse of the civil decomposition: the day number of a calendar date,
used to prove that distinct day numbers have distinct (year, month, day)
triples. -/
def daysFromCivil (y : Int) (m d : Nat) : Int :=
  let yAdj := y - (if m ≤ 2 then 1 else 0)
  let era := yAdj / 400
  let yoe := (yAdj - era * 400).toNat
  let mp := if 3 ≤ m then m - 3 else m + 9
  let doy := cumMonthDays mp + (d - 1)
  let doe := cumYearDays yoe + doy
  era * 146097 + (doe : Int) - 719468

/-- Go's `t.Year()` for the modelled instant. -/
def yearOf (t : Int) : Int := civilYear (dayNumber t)

/-- Go's `t.Month()` for the modelled instant (as `1 .. 12`). -/
def monthOf (t : Int) : Nat := civilMonth (dayNumber t)

/-- Go's `t.Day()` for the modelled instant. -/
def dayOf (t : Int) : Nat := civilDay (dayNumber t)

/-- The structured content of the error
`fmt.Errorf("end date %v is before start date %v", end, start)`
raised by `WorkingDays` and `DateDiff`. -/
structure InvalidRange where
  endDate : Int
  startDate : Int
deriving DecidableEq

deriving instance DecidableEq for Except

/-- Embeds `pluralize` from `utils.go`:
`fmt.Sprintf("%d %s", count, word)` when `count == 1`, otherwise
`fmt.Sprintf("%d %ss", count, word)`. -/
def pluralize (count : Int) (word : String) : String :=
  if count = 1 then toString count ++ " " ++ word
  else toString count ++ " " ++ word ++ "s"

/-- Embeds `isWeekend` from `temporalis.go`:
`t.Weekday() == time.Saturday || t.Weekday() == time.Sunday`. -/
def isWeekend (t : Int) : Bool := weekday t == 6 || weekday t == 0

/-- Embeds `isHoliday` from `temporalis.go`: a linear scan returning true
iff some entry matches `t` on the (Year, Month, Day) triple. -/
def isHoliday (t : Int) (holidays : List Int) : Bool :=
  holidays.any fun h =>
    yearOf t == yearOf h && monthOf t == monthOf h && dayOf t == dayOf h

/-- Embeds the loop of `DateRange`:
`for d := start; !d.After(end); d = d.AddDate(0, 0, 1) { dates = append(dates, d) }`. -/
def dateRangeLoop (endT d : Int) : List Int :=
  if _h : endT < d then [] else d :: dateRangeLoop endT (d + dayNs)
termination_by (endT + dayNs - d).toNat
decreasing_by simp only [dayNs] at *; omega

/-- Embeds `DateRange(start, end)` from `temporalis.go`. -/
def DateRange (start endT : Int) : List Int := dateRangeLoop endT start

/-- Embeds `DateDiff(start, end)` from `temporalis.go`: an `InvalidRange`
error when `end.Before(start)`, otherwise `int(end.Sub(start).Hours() / 24)`
(exact truncating division of the nanosecond difference by 24 hours). -/
def DateDiff (start endT : Int) : Except InvalidRange Int :=
  if endT < start then .error ⟨endT, start⟩
  else .ok ((endT - start).tdiv dayNs)

/-- Embeds the counting loop of `WorkingDays`:
`for d := start; !d.After(end); d = d.AddDate(0, 0, 1) { if !isWeekend(d) && !isHoliday(d, holidays) { weekdays++ } }`. -/
def workingDaysLoop (endT : Int) (holidays : List Int) (d : Int) : Int :=
  if _h : endT < d then 0
  else (if !isWeekend d && !isHoliday d holidays then 1 else 0) +
    workingDaysLoop endT holidays (d + dayNs)
termination_by (endT + dayNs - d).toNat
decreasing_by simp only [dayNs] at *; omega

/-- Embeds `WorkingDays(start, end, holidays)` from `temporalis.go`. -/
def WorkingDays (start endT : Int) (holidays : List Int) :
    Except InvalidRange Int :=
  if endT < start then .error ⟨endT, start⟩
  else .ok (workingDaysLoop endT holidays start)

/-- Embeds the counting loop of `BusinessDays`:
`for d := from; !d.After(to); d = d.AddDate(0, 0, 1) { if d.Weekday() != time.Saturday && d.Weekday() != time.Sunday && !isHoliday(d, holidays) { total++ } }`. -/
def businessDaysLoop (toT : Int) (holidays : List Int) (d : Int) : Int :=
  if _h : toT < d then 0
  else
    (if weekday d != 6 && weekday d != 0 && !isHoliday d holidays then 1
     else 0) + businessDaysLoop toT holidays (d + dayNs)
termination_by (toT + dayNs - d).toNat
decreasing_by simp only [dayNs] at *; omega

/-- Embeds `BusinessDays(from, to, holidays)` from `temporalis.go`
(no error channel; an out-of-order range never enters the loop). -/
def BusinessDays (fromT toT : Int) (holidays : List Int) : Int :=
  businessDaysLoop toT holidays fromT

/-- Embeds the accumulation loop of `BusinessHours`:
`for from.Before(to) { if from.Weekday() != time.Saturday && from.Weekday() != time.Sunday && !isHoliday(from, holidays) { total += time.Hour }; from = from.Add(time.Hour) }`. -/
def businessHoursLoop (toT : Int) (holidays : List Int) (fromT : Int) :
    Int :=
  if _h : fromT < toT then
    (if weekday fromT != 6 && weekday fromT != 0 && !isHoliday fromT holidays
     then hourNs else 0) + businessHoursLoop toT holidays (fromT + hourNs)
  else 0
termination_by (toT - fromT).toNat
decreasing_by simp only [hourNs] at *; omega

/-- Embeds `BusinessHours(from, to, holidays)` from `temporalis.go`. -/
def BusinessHours (fromT toT : Int) (holidays : List Int) : Int :=
  businessHoursLoop toT holidays fromT

/-- Embeds `IsLeapYear(year)` from `temporalis.go`:
`year%4 == 0 && (year%100 != 0 || year%400 == 0)` with Go's
truncating `%` (`Int.tmod`). -/
def IsLeapYear (year : Int) : Bool :=
  year.tmod 4 == 0 && (!(year.tmod 100 == 0) || year.tmod 400 == 0)

/-- The value `seconds := int64(duration.Seconds())` computed at the top of
`FormatDuration` (truncation toward zero, like Go's float-to-int
conversion). -/
def goSeconds0 (d : Int) : Int := d.tdiv nsPerSecond

/-- The `days` component computed by `FormatDuration`. -/
def goDays (d : Int) : Int := (goSeconds0 d).tdiv 86400

/-- The value of `seconds` after `seconds -= days * 86400` in
`FormatDuration`. -/
def goSeconds1 (d : Int) : Int := goSeconds0 d - goDays d * 86400

/-- The `hours` component computed by `FormatDuration`. -/
def goHours (d : Int) : Int := (goSeconds1 d).tdiv 3600

/-- The value of `seconds` after `seconds -= hours * 3600` in
`FormatDuration`. -/
def goSeconds2 (d : Int) : Int := goSeconds1 d - goHours d * 3600

/-- The `minutes` component computed by `FormatDuration`. -/
def goMinutes (d : Int) : Int := (goSeconds2 d).tdiv 60

/-- The final `seconds` component (after `seconds -= minutes * 60`) used by
`FormatDuration`. -/
def goSecondsLeft (d : Int) : Int := goSeconds2 d - goMinutes d * 60

/-- Embeds `FormatDuration(duration)` from `temporalis.go`: greedy
decomposition of `int64(duration.Seconds())` into days, hours, minutes and
seconds, conditional token building, and the `switch len(parts)` join. -/
def FormatDuration (duration : Int) : String :=
  let seconds0 := duration.tdiv nsPerSecond
  let days := seconds0.tdiv 86400
  let seconds1 := seconds0 - days * 86400
  let hours := seconds1.tdiv 3600
  let seconds2 := seconds1 - hours * 3600
  let minutes := seconds2.tdiv 60
  let seconds3 := seconds2 - minutes * 60
  let parts : List String :=
    (if days > 0 then [pluralize days "day"] else []) ++
    (if hours > 0 then [pluralize hours "hour"] else []) ++
    (if minutes > 0 then [pluralize minutes "minute"] else []) ++
    (if seconds3 > 0 then [pluralize seconds3 "second"] else [])
  match parts with
  | [] => "0 seconds"
  | [p] => p
  | [p1, p2] => p1 ++ " and " ++ p2
  | ps => String.intercalate ", " ps.dropLast ++ " and " ++ ps.getLastD ""

/-- The token building and `switch len(parts)` join of `FormatDuration`,
as a function of the four decomposed components (used to state facts about
the formatter without re-expanding its decomposition). -/
def renderParts (days hours minutes seconds3 : Int) : String :=
  let parts : List String :=
    (if days > 0 then [pluralize days "day"] else []) ++
    (if hours > 0 then [pluralize hours "hour"] else []) ++
    (if minutes > 0 then [pluralize minutes "minute"] else []) ++
    (if seconds3 > 0 then [pluralize seconds3 "second"] else [])
  match parts with
  | [] => "0 seconds"
  | [p] => p
  | [p1, p2] => p1 ++ " and " ++ p2
  | ps => String.intercalate ", " ps.dropLast ++ " and " ++ ps.getLastD ""

/-- Token format described by the specification: `"<count> <unit>"` with a
plural `s` suffix exactly when the count is not 1. -/
def specToken (count : Int) (unit : String) : String :=
  toString count ++ " " ++ unit ++ (if count = 1 then "" else "s")

/-- Tokens described by the specification: one token per non-zero unit, in
descending unit order (days, hours, minutes, seconds). -/
def specTokens (days hours minutes seconds : Int) : List String :=
  (([(days, "day"), (hours, "hour"), (minutes, "minute"),
     (seconds, "second")].filter fun p => 0 < p.1).map
    fun p => specToken p.1 p.2)

/-- Join rule described by the specification: zero tokens give the literal
`"0 seconds"`; one token stands alone; two tokens are joined by `" and "`;
three or more tokens have all but the last joined by `", "` followed by
`" and <last>"`. -/
def specJoin : List String → String
  | [] => "0 seconds"
  | [t] => t
  | [t1, t2] => t1 ++ " and " ++ t2
  | ts => String.intercalate ", " ts.dropLast ++ " and " ++ ts.getLastD ""

/-- Number of instants visited by the inclusive day-stepping loops
(`DateRange`, `WorkingDays`, `BusinessDays`) when started at `startT` with
bound `endT`. -/
def numDays (startT endT : Int) : Nat :=
  if startT ≤ endT then ((endT - startT) / dayNs).toNat + 1 else 0

/-- The instants visited by the inclusive day-stepping loops:
`startT, startT + 24h, …`, as long as the instant is not after `endT`. -/
def dayScan (startT endT : Int) : List Int :=
  (List.range (numDays startT endT)).map fun k : Nat => startT + dayNs * (k : Int)

/-- Number of steps taken by the `BusinessHours` loop: hour steps whose
start instant is strictly before `to`. -/
def numHours (fromT toT : Int) : Nat :=
  if fromT < toT then ((toT - fromT - 1) / hourNs).toNat + 1 else 0

/-- The step-start instants visited by the `BusinessHours` loop. -/
def hourScan (fromT toT : Int) : List Int :=
  (List.range (numHours fromT toT)).map fun k : Nat => fromT + hourNs * (k : Int)

/-- The day predicate of the `BusinessHours` and `BusinessDays` loops:
not Saturday, not Sunday, not a holiday. -/
def isBusinessInstant (t : Int) (holidays : List Int) : Bool :=
  weekday t != 6 && weekday t != 0 && !isHoliday t holidays

/-- Modelled from the claim's words for C2 (not from the code): walk
`[from, to)` in one-hour steps and count only whole hours, the final
partial hour being truncated, i.e. `⌊(to − from) / 1h⌋` steps. -/
def BusinessHoursTruncated (fromT toT : Int) (holidays : List Int) :
    Int :=
  hourNs *
    (((List.range (if fromT ≤ toT then ((toT - fromT) / hourNs).toNat else 0)).map
        fun k : Nat => fromT + hourNs * (k : Int)).countP
      fun t => isBusinessInstant t holidays)

/-! ### Properties of the civil calendar model -/

theorem civilDoe_spec (z : Int) :
    (civilDoe z : Int) = (z + 719468) - ((z + 719468) / 146097) * 146097 ∧
    civilDoe z < 146097 := by
  unfold civilDoe; omega

theorem civilYoe_le (z : Int) : civilYoe z ≤ 399 := Nat.findGreatest_le 399

theorem cumYearDays_civilYoe_le (z : Int) :
    cumYearDays (civilYoe z) ≤ civilDoe z := by
  have h0 : cumYearDays 0 ≤ civilDoe z := by simp [cumYearDays]
  unfold civilYoe
  exact @Nat.findGreatest_spec 0 (fun y => cumYearDays y ≤ civilDoe z) _ 399
    (Nat.zero_le 399) h0

theorem civilMp_le (z : Int) : civilMp z ≤ 11 := Nat.findGreatest_le 11

theorem cumMonthDays_civilMp_le (z : Int) :
    cumMonthDays (civilMp z) ≤ civilDoy z := by
  have h0 : cumMonthDays 0 ≤ civilDoy z := by simp [cumMonthDays]
  unfold civilMp
  exact @Nat.findGreatest_spec 0 (fun m => cumMonthDays m ≤ civilDoy z) _ 11
    (Nat.zero_le 11) h0

theorem daysFromCivil_civilFromDays (z : Int) :
    daysFromCivil (civilYear z) (civilMonth z) (civilDay z) = z := by
  have hdoe := civilDoe_spec z
  have hyle := civilYoe_le z
  have hcy := cumYearDays_civilYoe_le z
  have hmple := civilMp_le z
  have hcm := cumMonthDays_civilMp_le z
  have hdoy : civilDoy z = civilDoe z - cumYearDays (civilYoe z) := rfl
  have hday : civilDay z = civilDoy z - cumMonthDays (civilMp z) + 1 := rfl
  by_cases hm10 : civilMp z < 10
  · have hmonth : civilMonth z = civilMp z + 3 := by
      unfold civilMonth; rw [if_pos hm10]
    have hm3 : 3 ≤ civilMonth z := by omega
    have hmle2 : ¬ civilMonth z ≤ 2 := by omega
    have hyear : civilYear z =
        ((z + 719468) / 146097) * 400 + (civilYoe z : Int) := by
      unfold civilYear; rw [if_neg hmle2]; ring
    simp only [daysFromCivil]
    rw [if_neg hmle2, if_pos hm3, hyear]
    have hera :
        (((z + 719468) / 146097) * 400 + (civilYoe z : Int) - 0) / 400 =
          (z + 719468) / 146097 := by omega
    rw [hera]
    have hyoe2 :
        (((z + 719468) / 146097) * 400 + (civilYoe z : Int) - 0 -
          ((z + 719468) / 146097) * 400).toNat = civilYoe z := by omega
    rw [hyoe2]
    have hmp2 : civilMonth z - 3 = civilMp z := by omega
    rw [hmp2]
    omega
  · have hmonth : civilMonth z = civilMp z - 9 := by
      unfold civilMonth; rw [if_neg hm10]
    have h12 : civilMonth z ≤ 2 := by omega
    have hm3' : ¬ 3 ≤ civilMonth z := by omega
    have hyear : civilYear z =
        ((z + 719468) / 146097) * 400 + (civilYoe z : Int) + 1 := by
      unfold civilYear; rw [if_pos h12]
    simp only [daysFromCivil]
    rw [if_pos h12, if_neg hm3', hyear]
    have hera :
        (((z + 719468) / 146097) * 400 + (civilYoe z : Int) + 1 - 1) / 400 =
          (z + 719468) / 146097 := by omega
    rw [hera]
    have hyoe2 :
        (((z + 719468) / 146097) * 400 + (civilYoe z : Int) + 1 - 1 -
          ((z + 719468) / 146097) * 400).toNat = civilYoe z := by omega
    rw [hyoe2]
    have hmp2 : civilMonth z + 9 = civilMp z := by omega
    rw [hmp2]
    omega

theorem ymd_inj {t u : Int} (h1 : yearOf t = yearOf u)
    (h2 : monthOf t = monthOf u) (h3 : dayOf t = dayOf u) :
    dayNumber t = dayNumber u := by
  have a1 := daysFromCivil_civilFromDays (dayNumber t)
  have a2 := daysFromCivil_civilFromDays (dayNumber u)
  unfold yearOf at h1
  unfold monthOf at h2
  unfold dayOf at h3
  rw [h1, h2, h3] at a1
  omega

theorem weekday_congr {t u : Int} (h : dayNumber t = dayNumber u) :
    weekday t = weekday u := by
  unfold weekday; rw [h]

theorem isWeekend_congr {t u : Int} (h : dayNumber t = dayNumber u) :
    isWeekend t = isWeekend u := by
  unfold isWeekend; rw [weekday_congr h]

theorem dayNumber_add_mul (t : Int) (k : Nat) :
    dayNumber (t + dayNs * (k : Int)) = dayNumber t + k := by
  unfold dayNumber dayNs; omega

theorem civil_sanity_epoch :
    civilYear 0 = 1970 ∧ civilMonth 0 = 1 ∧ civilDay 0 = 1 ∧ weekday 0 = 4 := by
  decide

theorem civil_sanity_leap_day :
    civilYear 11016 = 2000 ∧ civilMonth 11016 = 2 ∧ civilDay 11016 = 29 := by
  decide


/-! ### Properties of the duration formatter -/

theorem formatDuration_eq_renderParts (d : Int) :
    FormatDuration d =
      renderParts (goDays d) (goHours d) (goMinutes d) (goSecondsLeft d) := rfl

theorem pluralize_eq_specToken (c : Int) (w : String) :
    pluralize c w = specToken c w := by
  unfold pluralize specToken
  by_cases h : c = 1
  · rw [if_pos h, if_pos h]; simp
  · rw [if_neg h, if_neg h]

theorem renderParts_eq_spec (a b c e : Int) :
    renderParts a b c e = specJoin (specTokens a b c e) := by
  unfold renderParts specTokens
  by_cases h1 : 0 < a <;> by_cases h2 : 0 < b <;> by_cases h3 : 0 < c <;>
    by_cases h4 : 0 < e <;>
    simp [h1, h2, h3, h4, specJoin, pluralize_eq_specToken]

theorem tdiv_nonpos_of_nonpos {a b : Int} (ha : a ≤ 0) (hb : 0 ≤ b) :
    a.tdiv b ≤ 0 := by
  have h := Int.tdiv_nonneg (show (0:Int) ≤ -a by omega) hb
  rw [Int.neg_tdiv] at h
  omega

theorem tmod_nonpos_of_nonpos {a : Int} (b : Int) (ha : a ≤ 0) :
    a.tmod b ≤ 0 := by
  have h := Int.tmod_nonneg b (show (0:Int) ≤ -a by omega)
  have h2 : (-a).tmod b = -(a.tmod b) := by
    rw [Int.tmod_def, Int.tmod_def, Int.neg_tdiv]; ring
  omega

theorem goSeconds1_eq_tmod (d : Int) :
    goSeconds1 d = (goSeconds0 d).tmod 86400 := by
  unfold goSeconds1 goDays; rw [Int.tmod_def]; ring

theorem goSeconds2_eq_tmod (d : Int) :
    goSeconds2 d = (goSeconds1 d).tmod 3600 := by
  unfold goSeconds2 goHours; rw [Int.tmod_def]; ring

theorem goSecondsLeft_eq_tmod (d : Int) :
    goSecondsLeft d = (goSeconds2 d).tmod 60 := by
  unfold goSecondsLeft goMinutes; rw [Int.tmod_def]; ring

/-- C1: for every non-negative duration, `FormatDuration` emits one token
per non-zero unit among days, hours, minutes, seconds, in descending unit
order, each token `"<count> <unit>"` with a plural `s` exactly when the
count is not 1 (`specTokens`), and joins them per the zero/one/two/many
rules (`specJoin`: `"0 seconds"`, the token alone, `"<first> and <second>"`,
or all but the last comma-joined followed by `" and <last>"`). -/
theorem c1_format_tokens_and_join (d : Int) (_hd : 0 ≤ d) :
    FormatDuration d =
      specJoin
        (specTokens (goDays d) (goHours d) (goMinutes d) (goSecondsLeft d)) := by
  rw [formatDuration_eq_renderParts, renderParts_eq_spec]

/-- Witness for C1 at the concrete duration 1 day + 1 hour + 1 minute +
1 second. -/
theorem c1_format_tokens_and_join_witness :
    (0 : Int) ≤ 90061000000000 ∧
      FormatDuration 90061000000000 =
        specJoin
          (specTokens (goDays 90061000000000) (goHours 90061000000000)
            (goMinutes 90061000000000) (goSecondsLeft 90061000000000)) :=
  ⟨by decide, c1_format_tokens_and_join 90061000000000 (by decide)⟩

/-- C5: for every non-negative duration the components computed by
`FormatDuration` are the greedy fixed-ratio decomposition of its
whole-second count — days `÷86400`, hours `÷3600` of the remainder,
minutes `÷60` of the remainder, seconds the final remainder — and in
particular `FormatDuration(27h) = "1 day and 3 hours"` and
`FormatDuration(2d+3h+4m+5s) = "2 days, 3 hours, 4 minutes and 5 seconds"`. -/
theorem c5_greedy_decomposition (d : Int) (hd : 0 ≤ d) :
    (goDays d = goSeconds0 d / 86400 ∧
     goHours d = goSeconds0 d % 86400 / 3600 ∧
     goMinutes d = goSeconds0 d % 86400 % 3600 / 60 ∧
     goSecondsLeft d = goSeconds0 d % 86400 % 3600 % 60) ∧
    FormatDuration (97200 * nsPerSecond) = "1 day and 3 hours" ∧
    FormatDuration (183845 * nsPerSecond) =
      "2 days, 3 hours, 4 minutes and 5 seconds" := by
  have h0 : 0 ≤ goSeconds0 d :=
    Int.tdiv_nonneg hd (by unfold nsPerSecond; omega)
  have hm1 : 0 ≤ goSeconds0 d % 86400 := Int.emod_nonneg _ (by omega)
  have hm2 : 0 ≤ goSeconds0 d % 86400 % 3600 := Int.emod_nonneg _ (by omega)
  have e1 : goSeconds1 d = goSeconds0 d % 86400 := by
    unfold goSeconds1 goDays
    rw [Int.tdiv_eq_ediv h0 (by omega)]; omega
  have e2 : goSeconds2 d = goSeconds0 d % 86400 % 3600 := by
    unfold goSeconds2 goHours
    rw [e1, Int.tdiv_eq_ediv hm1 (by omega)]; omega
  refine ⟨⟨?_, ?_, ?_, ?_⟩, by decide, by decide⟩
  · unfold goDays; exact Int.tdiv_eq_ediv h0 (by omega)
  · unfold goHours; rw [e1]; exact Int.tdiv_eq_ediv hm1 (by omega)
  · unfold goMinutes; rw [e2]; exact Int.tdiv_eq_ediv hm2 (by omega)
  · unfold goSecondsLeft goMinutes
    rw [e2, Int.tdiv_eq_ediv hm2 (by omega)]; omega

/-- Witness for C5 at the concrete duration 5 seconds. -/
theorem c5_greedy_decomposition_witness :
    (0 : Int) ≤ 5000000000 ∧
      ((goDays 5000000000 = goSeconds0 5000000000 / 86400 ∧
        goHours 5000000000 = goSeconds0 5000000000 % 86400 / 3600 ∧
        goMinutes 5000000000 = goSeconds0 5000000000 % 86400 % 3600 / 60 ∧
        goSecondsLeft 5000000000 = goSeconds0 5000000000 % 86400 % 3600 % 60) ∧
       FormatDuration (97200 * nsPerSecond) = "1 day and 3 hours" ∧
       FormatDuration (183845 * nsPerSecond) =
         "2 days, 3 hours, 4 minutes and 5 seconds") :=
  ⟨by decide, c5_greedy_decomposition 5000000000 (by decide)⟩

/-- C9: for every strictly negative duration every decomposed component is
non-positive under truncating division, so no token is emitted and
`FormatDuration` returns the literal `"0 seconds"`. -/
theorem c9_negative_formats_zero (d : Int) (hd : d < 0) :
    FormatDuration d = "0 seconds" := by
  have h0 : goSeconds0 d ≤ 0 :=
    tdiv_nonpos_of_nonpos (by omega) (by unfold nsPerSecond; omega)
  have h1 : goDays d ≤ 0 := tdiv_nonpos_of_nonpos h0 (by omega)
  have h2 : goSeconds1 d ≤ 0 := by
    rw [goSeconds1_eq_tmod]; exact tmod_nonpos_of_nonpos _ h0
  have h3 : goHours d ≤ 0 := tdiv_nonpos_of_nonpos h2 (by omega)
  have h4 : goSeconds2 d ≤ 0 := by
    rw [goSeconds2_eq_tmod]; exact tmod_nonpos_of_nonpos _ h2
  have h5 : goMinutes d ≤ 0 := tdiv_nonpos_of_nonpos h4 (by omega)
  have h6 : goSecondsLeft d ≤ 0 := by
    rw [goSecondsLeft_eq_tmod]; exact tmod_nonpos_of_nonpos _ h4
  rw [formatDuration_eq_renderParts]
  unfold renderParts
  rw [if_neg (by omega), if_neg (by omega), if_neg (by omega),
    if_neg (by omega)]
  rfl

/-- Witness for C9 at the concrete duration −1 nanosecond. -/
theorem c9_negative_formats_zero_witness :
    (-1 : Int) < 0 ∧ FormatDuration (-1) = "0 seconds" :=
  ⟨by decide, c9_negative_formats_zero (-1) (by decide)⟩

/-- C10: for every integer year, including negative years, `IsLeapYear`
returns true iff the year is divisible by 4 and either not divisible by
100 or divisible by 400 (Go's truncating `%` agrees with divisibility for
negative arguments). -/
theorem c10_isLeapYear_iff (y : Int) :
    IsLeapYear y = true ↔ (4 ∣ y ∧ (¬ 100 ∣ y ∨ 400 ∣ y)) := by
  unfold IsLeapYear
  simp [Int.dvd_iff_tmod_eq_zero]


/-! ### Closed forms of the range-walking loops -/

theorem numDays_nil {startT endT : Int} (h : endT < startT) :
    numDays startT endT = 0 := by
  unfold numDays; rw [if_neg (by omega)]

theorem numDays_step {startT endT : Int} (h : startT ≤ endT) :
    numDays startT endT = numDays (startT + dayNs) endT + 1 := by
  unfold numDays
  simp only [dayNs] at h ⊢
  by_cases h2 : startT + 86400000000000 ≤ endT
  · rw [if_pos h, if_pos h2]; omega
  · rw [if_pos h, if_neg h2]; omega

theorem dayScan_nil {startT endT : Int} (h : endT < startT) :
    dayScan startT endT = [] := by
  unfold dayScan; rw [numDays_nil h]; rfl

theorem dayScan_cons {startT endT : Int} (h : startT ≤ endT) :
    dayScan startT endT = startT :: dayScan (startT + dayNs) endT := by
  unfold dayScan
  rw [numDays_step h, List.range_succ_eq_map, List.map_cons, List.map_map]
  congr 1
  · simp
  · apply List.map_congr_left
    intro a _
    simp only [Function.comp_apply, Nat.succ_eq_add_one]
    push_cast
    ring

theorem dateRangeLoop_eq (endT d : Int) :
    dateRangeLoop endT d = dayScan d endT := by
  refine dateRangeLoop.induct endT
    (fun d => dateRangeLoop endT d = dayScan d endT) ?_ ?_ d
  · intro x hlt
    rw [dateRangeLoop, dif_pos hlt, dayScan_nil hlt]
  · intro x hle ih
    rw [dateRangeLoop, dif_neg hle, ih]
    conv_rhs => rw [dayScan_cons (show x ≤ endT by omega)]

theorem workingDaysLoop_eq (endT : Int) (hs : List Int) (d : Int) :
    workingDaysLoop endT hs d =
      ((dayScan d endT).countP fun t => !isWeekend t && !isHoliday t hs : Nat) := by
  refine workingDaysLoop.induct endT hs
    (fun d => workingDaysLoop endT hs d =
      ((dayScan d endT).countP fun t => !isWeekend t && !isHoliday t hs : Nat))
    ?_ ?_ d
  · intro x hlt
    rw [workingDaysLoop, dif_pos hlt, dayScan_nil hlt]
    rfl
  · intro x hle ih
    rw [workingDaysLoop, dif_neg hle, ih]
    conv_rhs => rw [dayScan_cons (show x ≤ endT by omega)]
    simp only [List.countP_cons]
    by_cases hc : (!isWeekend x && !isHoliday x hs) = true
    · rw [if_pos hc, if_pos hc]; omega
    · rw [if_neg hc, if_neg hc]; omega

theorem businessDaysLoop_eq_workingDaysLoop (toT : Int) (hs : List Int)
    (d : Int) : businessDaysLoop toT hs d = workingDaysLoop toT hs d := by
  refine businessDaysLoop.induct toT hs
    (fun d => businessDaysLoop toT hs d = workingDaysLoop toT hs d) ?_ ?_ d
  · intro x hlt
    rw [businessDaysLoop, dif_pos hlt, workingDaysLoop, dif_pos hlt]
  · intro x hle ih
    rw [businessDaysLoop, dif_neg hle, workingDaysLoop, dif_neg hle, ih]
    have hcond : (weekday x != 6 && weekday x != 0 && !isHoliday x hs) =
        (!isWeekend x && !isHoliday x hs) := by
      simp only [isWeekend, bne, Bool.not_or]
    rw [hcond]

theorem numHours_nil {fromT toT : Int} (h : ¬ fromT < toT) :
    numHours fromT toT = 0 := by
  unfold numHours; rw [if_neg h]

theorem numHours_step {fromT toT : Int} (h : fromT < toT) :
    numHours fromT toT = numHours (fromT + hourNs) toT + 1 := by
  unfold numHours
  simp only [hourNs] at h ⊢
  by_cases h2 : fromT + 3600000000000 < toT
  · rw [if_pos h, if_pos h2]; omega
  · rw [if_pos h, if_neg h2]; omega

theorem hourScan_nil {fromT toT : Int} (h : ¬ fromT < toT) :
    hourScan fromT toT = [] := by
  unfold hourScan; rw [numHours_nil h]; rfl

theorem hourScan_cons {fromT toT : Int} (h : fromT < toT) :
    hourScan fromT toT = fromT :: hourScan (fromT + hourNs) toT := by
  unfold hourScan
  rw [numHours_step h, List.range_succ_eq_map, List.map_cons, List.map_map]
  congr 1
  · simp
  · apply List.map_congr_left
    intro a _
    simp only [Function.comp_apply, Nat.succ_eq_add_one]
    push_cast
    ring

theorem businessHoursLoop_eq (toT : Int) (hs : List Int) (fromT : Int) :
    businessHoursLoop toT hs fromT =
      hourNs * ((hourScan fromT toT).countP fun t => isBusinessInstant t hs : Nat) := by
  refine businessHoursLoop.induct toT hs
    (fun fromT => businessHoursLoop toT hs fromT =
      hourNs * ((hourScan fromT toT).countP fun t => isBusinessInstant t hs : Nat))
    ?_ ?_ fromT
  · intro x hlt ih
    rw [businessHoursLoop, dif_pos hlt, ih]
    conv_rhs => rw [hourScan_cons hlt]
    simp only [List.countP_cons, isBusinessInstant]
    by_cases hc : (weekday x != 6 && weekday x != 0 && !isHoliday x hs) = true
    · rw [if_pos hc, if_pos hc]; push_cast; ring
    · rw [if_neg hc, if_neg hc]; push_cast; ring
  · intro x hnlt
    rw [businessHoursLoop, dif_neg hnlt, hourScan_nil hnlt]
    rfl


/-! ### Claims about the calendar range evaluator -/

/-- C2 (amended): `BusinessHours` walks one-hour steps starting at `from`,
taking a step whenever the step's start is strictly before `to`
(`hourScan`), and adds one full hour exactly when the step's start instant
falls on a non-weekend, non-holiday day; consequently a `to` that is not
hour-aligned rounds the final partial hour up to a whole counted hour
(rather than truncating it), and whenever `from` is not strictly before
`to` the result is a zero duration. -/
theorem c2_businessHours_rounds_up (fromT toT : Int) (hs : List Int) :
    BusinessHours fromT toT hs =
      hourNs * ((hourScan fromT toT).countP fun t => isBusinessInstant t hs : Nat) ∧
    (¬ fromT < toT → BusinessHours fromT toT hs = 0) := by
  constructor
  · exact businessHoursLoop_eq toT hs fromT
  · intro h
    unfold BusinessHours
    rw [businessHoursLoop, dif_neg h]

/-- Witness for the amended C2: a range of zero width gives a zero
duration, and the closed form holds on a one-hour Monday range. -/
theorem c2_businessHours_rounds_up_witness :
    BusinessHours 345600000000000 345600000000000 [] = 0 ∧
      BusinessHours 345600000000000 349200000000000 [] =
        hourNs * ((hourScan 345600000000000 349200000000000).countP
          fun t => isBusinessInstant t [] : Nat) :=
  ⟨(c2_businessHours_rounds_up 345600000000000 345600000000000 []).2
      (by omega),
    (c2_businessHours_rounds_up 345600000000000 349200000000000 []).1⟩

/-- Counterexample to C2 as stated: over the 90-minute range from Monday
1970-01-05 00:00 UTC to 01:30 UTC with no holidays, the code counts two
full hours (both step starts 00:00 and 01:00 are before `to`), while the
claimed truncation of the final partial hour would count one; so the final
partial hour is counted, not truncated. -/
theorem c2_counterexample :
    BusinessHours 345600000000000 351000000000000 [] = 7200000000000 ∧
    BusinessHoursTruncated 345600000000000 351000000000000 [] =
      3600000000000 ∧
    BusinessHours 345600000000000 351000000000000 [] ≠
      BusinessHoursTruncated 345600000000000 351000000000000 [] := by
  have h1 : BusinessHours 345600000000000 351000000000000 [] =
      7200000000000 := by
    unfold BusinessHours
    rw [businessHoursLoop_eq]
    decide
  have h2 : BusinessHoursTruncated 345600000000000 351000000000000 [] =
      3600000000000 := by decide
  exact ⟨h1, h2, by rw [h1, h2]; decide⟩

/-- C3: for well-ordered bounds `WorkingDays` succeeds and returns exactly
the count computed by `BusinessDays` (the two day-counting loops use the
same predicate), and for `start > end` `BusinessDays` has no error signal
and silently returns 0. -/
theorem c3_workingDays_eq_businessDays (startT endT : Int) (hs : List Int) :
    (startT ≤ endT →
      WorkingDays startT endT hs = Except.ok (BusinessDays startT endT hs)) ∧
    (endT < startT → BusinessDays startT endT hs = 0) := by
  constructor
  · intro h
    unfold WorkingDays BusinessDays
    rw [if_neg (by omega), businessDaysLoop_eq_workingDaysLoop]
  · intro h
    unfold BusinessDays
    rw [businessDaysLoop, dif_pos h]

/-- Witness for C3 on the concrete range 1970-01-01 to 1970-01-02 and the
reversed range. -/
theorem c3_workingDays_eq_businessDays_witness :
    WorkingDays 0 86400000000000 [] =
      Except.ok (BusinessDays 0 86400000000000 []) ∧
    BusinessDays 86400000000000 0 [] = 0 :=
  ⟨(c3_workingDays_eq_businessDays 0 86400000000000 []).1 (by omega),
    (c3_workingDays_eq_businessDays 86400000000000 0 []).2 (by omega)⟩

/-- C4: `WorkingDays` fails exactly when `end` precedes `start`, the error
carries both endpoints (`end` first, as formatted into the message), and
when `start == end` falls on a weekend day or a holiday it returns 0 with
no error. -/
theorem c4_workingDays_invalidRange (startT endT : Int) (hs : List Int) :
    (WorkingDays startT endT hs = Except.error ⟨endT, startT⟩ ↔
      endT < startT) ∧
    (∀ e, WorkingDays startT endT hs = Except.error e →
      e = ⟨endT, startT⟩) ∧
    (startT = endT → (isWeekend startT = true ∨ isHoliday startT hs = true) →
      WorkingDays startT endT hs = Except.ok 0) := by
  unfold WorkingDays
  by_cases h : endT < startT
  · rw [if_pos h]
    refine ⟨⟨fun _ => h, fun _ => rfl⟩, ?_, ?_⟩
    · intro e he
      injection he with h2
      exact h2.symm
    · intro heq _
      omega
  · rw [if_neg h]
    refine ⟨⟨fun hc => ?_, fun hc => absurd hc h⟩, ?_, ?_⟩
    · exact absurd hc (by simp)
    · intro e he
      simp at he
    · intro heq hcond
      subst heq
      have hstop : workingDaysLoop startT hs (startT + dayNs) = 0 := by
        rw [workingDaysLoop, dif_pos (by unfold dayNs; omega)]
      have hfalse : (!isWeekend startT && !isHoliday startT hs) = false := by
        rcases hcond with hc | hc <;> simp [hc]
      rw [workingDaysLoop, dif_neg (by omega), hstop, hfalse]
      rfl

/-- Witness for C4: the single Saturday 1970-01-03 yields `ok 0`, and the
reversed range 1970-01-02 .. 1970-01-01 yields the `InvalidRange` error
carrying both endpoints. -/
theorem c4_workingDays_invalidRange_witness :
    isWeekend 172800000000000 = true ∧
    WorkingDays 172800000000000 172800000000000 [] = Except.ok 0 ∧
    WorkingDays 86400000000000 0 [] =
      Except.error ⟨0, 86400000000000⟩ :=
  ⟨by decide,
    (c4_workingDays_invalidRange 172800000000000 172800000000000 []).2.2 rfl
      (Or.inl (by decide)),
    (c4_workingDays_invalidRange 86400000000000 0 []).1.mpr (by omega)⟩

/-- C6: `DateRange` produces the inclusive day-stepped sequence: it is
empty with no error when `start` is after `end`; for `start ≤ end` the
k-th element is `start + k` days, the length is the whole-day count of the
range plus one, and consecutive elements differ by exactly one calendar
day; and `DateRange(start, start)` is `[start]`. -/
theorem c6_dateRange (startT endT : Int) :
    (endT < startT → DateRange startT endT = []) ∧
    (startT ≤ endT →
      DateRange startT endT =
        (List.range (((endT - startT) / dayNs).toNat + 1)).map
          (fun k : Nat => startT + dayNs * (k : Int)) ∧
      (DateRange startT endT).length =
        ((endT - startT) / dayNs).toNat + 1 ∧
      List.Chain' (fun a b => b = a + dayNs) (DateRange startT endT)) ∧
    DateRange startT startT = [startT] := by
  have hcf : DateRange startT endT = dayScan startT endT :=
    dateRangeLoop_eq endT startT
  refine ⟨?_, ?_, ?_⟩
  · intro h
    rw [hcf, dayScan_nil h]
  · intro h
    have hnum : numDays startT endT = ((endT - startT) / dayNs).toNat + 1 := by
      unfold numDays; rw [if_pos h]
    refine ⟨?_, ?_, ?_⟩
    · rw [hcf]; unfold dayScan; rw [hnum]
    · rw [hcf]; unfold dayScan; rw [hnum]
      simp [List.length_map, List.length_range]
    · rw [hcf]; unfold dayScan
      rw [List.chain'_map]
      rw [hnum]
      exact (List.chain'_range_succ _ _).mpr
        (fun m _ => by push_cast; ring)
  · have h1 : DateRange startT startT = dayScan startT startT :=
      dateRangeLoop_eq startT startT
    rw [h1, dayScan_cons (le_refl startT),
      dayScan_nil (by unfold dayNs; omega)]

/-- Witness for C6 on the ranges 1970-01-01 .. 1970-01-03 and the reversed
range. -/
theorem c6_dateRange_witness :
    DateRange 0 172800000000000 = [0, 86400000000000, 172800000000000] ∧
    DateRange 172800000000000 0 = [] ∧
    DateRange 5 5 = [5] := by
  have h1 := ((c6_dateRange 0 172800000000000).2.1 (by omega)).1
  have h2 := (c6_dateRange 172800000000000 0).1 (by omega)
  have h3 := (c6_dateRange 5 5).2.2
  refine ⟨?_, h2, h3⟩
  rw [h1]
  decide

/-- C7: `DateDiff` fails with the `InvalidRange` error carrying both
endpoints exactly when `end` precedes `start`; otherwise it returns the
truncating division of the elapsed hours by 24 (a fixed-duration
difference). -/
theorem c7_dateDiff (startT endT : Int) :
    (DateDiff startT endT = Except.error ⟨endT, startT⟩ ↔ endT < startT) ∧
    (∀ e, DateDiff startT endT = Except.error e → e = ⟨endT, startT⟩) ∧
    (startT ≤ endT →
      DateDiff startT endT =
        Except.ok (((endT - startT) / hourNs) / 24)) := by
  unfold DateDiff
  by_cases h : endT < startT
  · rw [if_pos h]
    refine ⟨⟨fun _ => h, fun _ => rfl⟩, ?_, ?_⟩
    · intro e he
      injection he with h2
      exact h2.symm
    · intro hle
      omega
  · rw [if_neg h]
    refine ⟨⟨fun hc => by simp at hc, fun hc => absurd hc h⟩, ?_, ?_⟩
    · intro e he
      simp at he
    · intro hle
      congr 1
      rw [Int.tdiv_eq_ediv (by omega) (by unfold dayNs; omega)]
      unfold dayNs hourNs
      omega

/-- Witness for C7: a range of 2 days plus 5 nanoseconds gives 2 whole
days, and the reversed range gives the error. -/
theorem c7_dateDiff_witness :
    DateDiff 0 172800000000005 =
      Except.ok (((172800000000005 - 0) / hourNs) / 24) ∧
    DateDiff 5 0 = Except.error ⟨0, 5⟩ :=
  ⟨(c7_dateDiff 0 172800000000005).2.2 (by omega),
    (c7_dateDiff 5 0).1.mpr (by omega)⟩


/-! ### Counting with a single holiday -/

theorem isHoliday_nil (t : Int) : isHoliday t [] = false := rfl

theorem isHoliday_singleton (t h : Int) :
    isHoliday t [h] = decide (dayNumber t = dayNumber h) := by
  unfold isHoliday
  simp only [List.any_cons, List.any_nil, Bool.or_false]
  by_cases hd : dayNumber t = dayNumber h
  · have h1 : yearOf t = yearOf h := by unfold yearOf; rw [hd]
    have h2 : monthOf t = monthOf h := by unfold monthOf; rw [hd]
    have h3 : dayOf t = dayOf h := by unfold dayOf; rw [hd]
    simp [h1, h2, h3, hd]
  · by_cases h1 : yearOf t = yearOf h
    · by_cases h2 : monthOf t = monthOf h
      · by_cases h3 : dayOf t = dayOf h
        · exact absurd (ymd_inj h1 h2 h3) hd
        · simp [h1, h2, h3, hd]
      · simp [h1, h2, hd]
    · simp [h1, hd]

theorem countP_range_erase (q : Nat → Bool) :
    ∀ (N k : Nat), k < N → q k = true →
      (List.range N).countP (fun j => q j && !(j == k)) + 1 =
        (List.range N).countP q := by
  intro N
  induction N with
  | zero => intro k hk _; exact absurd hk (Nat.not_lt_zero k)
  | succ n ih =>
    intro k hk hq
    rw [List.range_succ, List.countP_append, List.countP_append]
    by_cases hkn : k = n
    · subst hkn
      have hfilter : ∀ j ∈ List.range k,
          (q j && !(j == k)) = q j := by
        intro j hj
        have hjk : j < k := List.mem_range.mp hj
        have hne : ((j == k) : Bool) = false := by
          simp only [beq_eq_false_iff_ne]; omega
        simp [hne]
      rw [List.countP_congr (fun x hx => by rw [hfilter x hx])]
      simp [List.countP_cons, hq]
    · have hkn2 : k < n := by omega
      rw [← ih k hkn2 hq]
      have hne : ((n == k) : Bool) = false := by
        simp only [beq_eq_false_iff_ne]; omega
      simp only [List.countP_cons, List.countP_nil, hne, Bool.and_false,
        Bool.and_true]
      by_cases hqn : q n = true
      · simp [hqn]
        try omega
      · simp only [Bool.not_eq_true] at hqn
        simp [hqn]
        try omega

/-- C8 (amended): for every range `start ≤ end` and every non-weekend
instant `h` whose (year, month, day) triple is that of one of the instants
actually visited by the scan (`start + k` days for some `k <
numDays start end`), `WorkingDays` with `{h}` returns exactly one less
than with the empty holiday set; and holiday membership compares
(year, month, day) triples only, so replacing the holiday entry by any
instant with the same triple (any time of day) leaves the count
unchanged. -/
theorem c8_one_holiday_one_less (startT endT h : Int)
    (hrange : startT ≤ endT) (hw : isWeekend h = false) (k : Nat)
    (hk : k < numDays startT endT)
    (hy : yearOf h = yearOf (startT + dayNs * (k : Int)))
    (hm : monthOf h = monthOf (startT + dayNs * (k : Int)))
    (hd : dayOf h = dayOf (startT + dayNs * (k : Int))) :
    WorkingDays startT endT [h] =
      Except.map (fun n => n - 1) (WorkingDays startT endT []) ∧
    (∀ h2 : Int, yearOf h2 = yearOf h → monthOf h2 = monthOf h →
      dayOf h2 = dayOf h →
      WorkingDays startT endT [h2] = WorkingDays startT endT [h]) := by
  have hdn : dayNumber h = dayNumber startT + k := by
    have hinj := ymd_inj hy hm hd
    rw [dayNumber_add_mul] at hinj
    exact hinj
  constructor
  · unfold WorkingDays
    rw [if_neg (by omega), if_neg (by omega)]
    rw [workingDaysLoop_eq, workingDaysLoop_eq]
    simp only [Except.map]
    congr 1
    unfold dayScan
    rw [List.countP_map, List.countP_map]
    have hpt : ∀ j ∈ List.range (numDays startT endT),
        ((fun t => !isWeekend t && !isHoliday t [h]) ∘
          (fun k : Nat => startT + dayNs * (k : Int))) j =
        (((fun t => !isWeekend t && !isHoliday t ([] : List Int)) ∘
          (fun k : Nat => startT + dayNs * (k : Int))) j && !(j == k)) := by
      intro j _
      simp only [Function.comp_apply, isHoliday_nil, isHoliday_singleton,
        Bool.not_false, Bool.and_true]
      have hdj : dayNumber (startT + dayNs * (j : Int)) =
          dayNumber startT + j := dayNumber_add_mul startT j
      by_cases hjk : j = k
      · subst hjk
        have : dayNumber (startT + dayNs * (j : Int)) = dayNumber h := by
          omega
        simp [this]
      · have : ¬ dayNumber (startT + dayNs * (j : Int)) = dayNumber h := by
          omega
        simp [this, hjk]
    rw [List.countP_congr (fun x hx => by rw [hpt x hx])]
    have hqk : ((fun t => !isWeekend t && !isHoliday t ([] : List Int)) ∘
        (fun k : Nat => startT + dayNs * (k : Int))) k = true := by
      simp only [Function.comp_apply, isHoliday_nil, Bool.not_false,
        Bool.and_true, Bool.not_eq_true']
      have : isWeekend (startT + dayNs * (k : Int)) = isWeekend h :=
        isWeekend_congr (by rw [dayNumber_add_mul]; omega)
      rw [this, hw]
    have hcount := countP_range_erase
      ((fun t => !isWeekend t && !isHoliday t ([] : List Int)) ∘
        (fun k : Nat => startT + dayNs * (k : Int)))
      (numDays startT endT) k hk hqk
    omega
  · intro h2 a b c
    unfold WorkingDays
    rw [if_neg (by omega), if_neg (by omega)]
    congr 1
    rw [workingDaysLoop_eq, workingDaysLoop_eq]
    congr 1
    apply List.countP_congr
    intro t _
    have : isHoliday t [h2] = isHoliday t [h] := by
      unfold isHoliday
      simp only [List.any_cons, List.any_nil, Bool.or_false]
      rw [a, b, c]
    rw [this]

/-- Witness for the amended C8: scanning Monday 1970-01-05 00:00 to
Wednesday 1970-01-07 00:00 with the single holiday Tuesday 1970-01-06
07:00 (whose date is the second visited day) counts one less than with no
holidays. -/
theorem c8_one_holiday_one_less_witness :
    (345600000000000 : Int) ≤ 518400000000000 ∧
    isWeekend 457200000000000 = false ∧
    1 < numDays 345600000000000 518400000000000 ∧
    WorkingDays 345600000000000 518400000000000 [457200000000000] =
      Except.map (fun n => n - 1)
        (WorkingDays 345600000000000 518400000000000 []) :=
  ⟨by omega, by decide, by decide,
    (c8_one_holiday_one_less 345600000000000 518400000000000 457200000000000
      (by omega) (by decide) 1 (by decide) (by decide) (by decide)
      (by decide)).1⟩

/-- Counterexample to C8 as stated: scanning from Monday 1970-01-05 23:00
to Tuesday 1970-01-06 01:00, the loop only visits Monday 23:00, so the
non-weekend holiday `h` = Tuesday 01:00 — an instant inside `[start, end]`
whose calendar date (1970-01-06) lies inside the range — is never matched:
the count stays 1 instead of dropping by one. -/
theorem c8_counterexample :
    isWeekend 435600000000000 = false ∧
    (428400000000000 : Int) ≤ 435600000000000 ∧
    WorkingDays 428400000000000 435600000000000 [] = Except.ok 1 ∧
    WorkingDays 428400000000000 435600000000000 [435600000000000] =
      Except.ok 1 := by
  refine ⟨by decide, by omega, ?_, ?_⟩
  · unfold WorkingDays
    rw [if_neg (by omega), workingDaysLoop_eq]
    decide
  · unfold WorkingDays
    rw [if_neg (by omega), workingDaysLoop_eq]
    decide

end Temporalis
